import Mathlib

/-!
Verification of the in-memory Raft storage backend (`RamStorage`) and the
key/value state-machine binary codec (`KvStateMachine`, `SetValueCommand`).

Byte sequences are modelled as `List Nat` (each element one byte), machine
integers as `Nat` with explicit `% 2 ^ 32` where `u32` casts occur, and
fallible Rust code as `Option`-returning functions.  Rust panics (the
`.unwrap()` calls on `String::from_utf8`) are modelled by a dedicated
`DRes.panic` outcome of the decoder.
-/

/-- Big-endian byte list of `n` cast to `u32`, i.e. `(n as u32).to_be_bytes()`. -/
def u32be (n : Nat) : List Nat :=
  [n / 2 ^ 24 % 256, n / 2 ^ 16 % 256, n / 2 ^ 8 % 256, n % 256]

/-- Modelled from the spec: `ReadBytes.next_u32` of the byte-reader trait
(big-endian, returns `None` when fewer than four bytes remain). -/
def next_u32 : List Nat → Option (Nat × List Nat)
  | b0 :: b1 :: b2 :: b3 :: rest => some (((b0 * 256 + b1) * 256 + b2) * 256 + b3, rest)
  | _ => none

/-- Modelled from the spec: `ReadBytes.next_bytes n` of the byte-reader trait
(returns the next `n` bytes, or `None` when fewer than `n` remain). -/
def next_bytes (n : Nat) (l : List Nat) : Option (List Nat × List Nat) :=
  if n ≤ l.length then some (l.take n, l.drop n) else none

/-- State of the incremental UTF-8 validator: either at a character boundary,
or expecting one byte in `[lo, hi]` followed by `more` bytes in `[0x80, 0xBF]`. -/
inductive Utf8St where
  | start : Utf8St
  | need (lo hi more : Nat) : Utf8St
deriving DecidableEq

/-- One step of UTF-8 validation (RFC 3629 table, as enforced by Rust's
`String::from_utf8`): lead-byte ranges with their continuation constraints. -/
def utf8Step : Utf8St → Nat → Option Utf8St
  | .start, b =>
    if b ≤ 0x7F then some .start
    else if b < 0xC2 then none
    else if b ≤ 0xDF then some (.need 0x80 0xBF 0)
    else if b = 0xE0 then some (.need 0xA0 0xBF 1)
    else if b ≤ 0xEC then some (.need 0x80 0xBF 1)
    else if b = 0xED then some (.need 0x80 0x9F 1)
    else if b ≤ 0xEF then some (.need 0x80 0xBF 1)
    else if b = 0xF0 then some (.need 0x90 0xBF 2)
    else if b ≤ 0xF3 then some (.need 0x80 0xBF 2)
    else if b = 0xF4 then some (.need 0x80 0x8F 2)
    else none
  | .need lo hi more, b =>
    if lo ≤ b ∧ b ≤ hi then
      if more = 0 then some .start else some (.need 0x80 0xBF (more - 1))
    else none

/-- Run the UTF-8 validator over a byte list from a given state. -/
def utf8Run : Utf8St → List Nat → Option Utf8St
  | st, [] => some st
  | st, b :: rest =>
    match utf8Step st b with
    | none => none
    | some st2 => utf8Run st2 rest

/-- A byte list is valid UTF-8 when the validator consumes it all and ends at a
character boundary; this is the success condition of `String::from_utf8`. -/
def validUtf8 (l : List Nat) : Bool :=
  decide (utf8Run .start l = some .start)

/-- Outcome of a Rust decoding function: a panic (e.g. a failed `.unwrap()`),
a `None` return, or `Some` value together with the unconsumed bytes. -/
inductive DRes (α : Type) where
  | panic : DRes α
  | fail : DRes α
  | ok : α → List Nat → DRes α
deriving DecidableEq

/-- One length-prefixed string field as read by the decoders in
`state_machine.rs`: `bytes.next_u32()?`, `bytes.next_bytes(len)?`, then
`String::from_utf8(..).unwrap()` — which panics on malformed UTF-8. -/
def readStr (l : List Nat) : DRes (List Nat) :=
  match next_u32 l with
  | none => .fail
  | some (n, rest) =>
    match next_bytes n rest with
    | none => .fail
    | some (s, rest2) => if validUtf8 s then .ok s rest2 else .panic

/-- A key/value state machine value: the `HashMap<String, String>` of
`KvStateMachine`, modelled as its iteration sequence of (key bytes, value
bytes) pairs.  The `HashMap` invariant is that keys are distinct. -/
abbrev KvModel : Type := List (List Nat × List Nat)

/-- `HashMap::insert`: replace the value at an existing key in place, or add a
new binding. -/
def insertPair : KvModel → List Nat → List Nat → KvModel
  | [], k, v => [(k, v)]
  | (k0, v0) :: t, k, v =>
    if k0 = k then (k, v) :: t else (k0, v0) :: insertPair t k v

/-- The entry-reading loop of `KvStateMachine::try_from_bytes`: read `n`
(key, value) pairs, inserting each into the map. -/
def readPairs : Nat → List Nat → KvModel → DRes KvModel
  | 0, l, acc => .ok acc l
  | n + 1, l, acc =>
    match readStr l with
    | .panic => .panic
    | .fail => .fail
    | .ok k l1 =>
      match readStr l1 with
      | .panic => .panic
      | .fail => .fail
      | .ok v l2 => readPairs n l2 (insertPair acc k v)

/-- `KvStateMachine::try_from_bytes`: a `u32` entry count followed by that many
length-prefixed key/value string pairs; trailing bytes are ignored. -/
def kv_try_from_bytes (l : List Nat) : DRes KvModel :=
  match next_u32 l with
  | none => .fail
  | some (n, rest) => readPairs n rest []

/-- `SetValueCommand` of `state_machine.rs`: three strings (key, value,
client message id), each modelled as its byte sequence. -/
structure SetValueCommand where
  key : List Nat
  value : List Nat
  mid : List Nat
deriving DecidableEq

/-- `SetValueCommand::try_from_bytes`: three length-prefixed string fields in
order key, value, mid. -/
def svc_try_from_bytes (l : List Nat) : DRes SetValueCommand :=
  match readStr l with
  | .panic => .panic
  | .fail => .fail
  | .ok key l1 =>
    match readStr l1 with
    | .panic => .panic
    | .fail => .fail
    | .ok value l2 =>
      match readStr l2 with
      | .panic => .panic
      | .fail => .fail
      | .ok mid l3 => .ok ⟨key, value, mid⟩ l3

/-- One length-prefixed string field as written by `write_bytes`:
`(s.len() as u32).to_be_bytes()` followed by the raw bytes. -/
def writeStr (s : List Nat) : List Nat :=
  u32be s.length ++ s

/-- The entry-writing loop of `KvStateMachine::write_bytes`. -/
def writePairs : KvModel → List Nat
  | [] => []
  | (k, v) :: t => writeStr k ++ writeStr v ++ writePairs t

/-- `KvStateMachine::write_bytes`: `(map.len() as u32).to_be_bytes()` followed
by each pair's length-prefixed key and value in iteration order. -/
def kv_write_bytes (m : KvModel) : List Nat :=
  u32be m.length ++ writePairs m

example : kv_try_from_bytes (kv_write_bytes [([97], [98])]) = .ok [([97], [98])] [] := by decide

example : kv_try_from_bytes [0, 0, 0, 1, 0, 0, 0, 1, 255, 0, 0, 0, 0] = .panic := by decide

example : kv_try_from_bytes [0, 0, 0, 1, 0, 0] = .fail := by decide

example : svc_try_from_bytes [0, 0, 0, 1, 255] = .panic := by decide

example : svc_try_from_bytes [0, 0, 0, 2, 97] = .fail := by decide

/-- The decoder seen through the `TryFromBytes` trait signature
(`Option<Self>`), used where `RamStorage` consumes it; a panic outcome does
not return at all, and the claims using this instantiation separately prove
the panic branch is never taken on the inputs involved. -/
def kvDecodeOpt (l : List Nat) : Option KvModel :=
  match kv_try_from_bytes l with
  | .ok m _ => some m
  | _ => none

/-- The state of `RamStorage<S>` from `storage.rs`, generic over the state
machine snapshot type `σ` (Rust's `RaftStateMachine<S>`) and the log entry
type `ε` (Rust's `LogEntry<S::Command>`, never inspected by the storage). -/
structure RamStorage (σ ε : Type) where
  log : List ε
  current_term : Nat
  voted_for : Option Nat
  snapshot_bytes : List Nat
  snapshot_last_index : Nat
  snapshot_last_term : Nat
  snapshot_chunk_bytes : List Nat
  init_state_machine : σ
deriving DecidableEq

/-- `RamStorage::new`: empty log, term 0, no vote, empty snapshot and chunk
buffers, holding the caller-supplied initial state machine. -/
def RamStorage.new {σ ε : Type} (init : σ) : RamStorage σ ε :=
  ⟨[], 0, none, [], 0, 0, [], init⟩

/-- `add_log_entry`: `self.log.push(entry)`. -/
def RamStorage.add_log_entry {σ ε : Type} (s : RamStorage σ ε) (e : ε) : RamStorage σ ε :=
  { s with log := s.log ++ [e] }

/-- `remove_log_entries_before`: `self.log.drain(..index)`, which removes the
positions `[0, index)` and panics (`none`) when `index` exceeds the length. -/
def RamStorage.remove_log_entries_before {σ ε : Type} (s : RamStorage σ ε) (index : Nat) :
    Option (RamStorage σ ε) :=
  if index ≤ s.log.length then some { s with log := s.log.drop index } else none

/-- `remove_log_entries_starting_at`: `self.log.drain(index..)`, which removes
the positions `[index, len)` and panics (`none`) when `index` exceeds the
length. -/
def RamStorage.remove_log_entries_starting_at {σ ε : Type} (s : RamStorage σ ε) (index : Nat) :
    Option (RamStorage σ ε) :=
  if index ≤ s.log.length then some { s with log := s.log.take index } else none

/-- `log_entry`: `self.log.get(index)`. -/
def RamStorage.log_entry {σ ε : Type} (s : RamStorage σ ε) (index : Nat) : Option ε :=
  s.log.get? index

/-- `num_log_entries`: `self.log.len()`. -/
def RamStorage.num_log_entries {σ ε : Type} (s : RamStorage σ ε) : Nat :=
  s.log.length

/-- `set_snapshot`: store the metadata and re-encode the snapshot into
`snapshot_bytes` (the `enc` parameter is the state machine's `WriteBytes`
implementation the Rust code is generic over). -/
def RamStorage.set_snapshot {σ ε : Type} (enc : σ → List Nat) (s : RamStorage σ ε)
    (last_index last_term : Nat) (sm : σ) : RamStorage σ ε :=
  { s with
    snapshot_last_index := last_index
    snapshot_last_term := last_term
    snapshot_bytes := enc sm }

/-- `snapshot()`: decode `snapshot_bytes`, falling back to a clone of the
initial state machine when decoding fails (`unwrap_or_else`). -/
def RamStorage.snapshot {σ ε : Type} (dec : List Nat → Option σ) (s : RamStorage σ ε) : σ :=
  (dec s.snapshot_bytes).getD s.init_state_machine

/-- `Vec::resize_with(n, || 0)`: truncate to `n` elements, or extend with
zeros up to `n` elements. -/
def resizeTo (buf : List Nat) (n : Nat) : List Nat :=
  if n ≤ buf.length then buf.take n else buf ++ List.replicate (n - buf.length) 0

/-- `Vec::splice(start..stop, data)`: replace the elements at positions
`[start, stop)` by `data`. -/
def spliceReplace (v : List Nat) (start stop : Nat) (data : List Nat) : List Nat :=
  v.take start ++ data ++ v.drop stop

/-- `add_new_snapshot_chunk`: resize the chunk buffer to exactly
`offset + data.len()` and splice `data` over its tail. -/
def RamStorage.add_new_snapshot_chunk {σ ε : Type} (s : RamStorage σ ε) (offset : Nat)
    (data : List Nat) : RamStorage σ ε :=
  { s with
    snapshot_chunk_bytes :=
      spliceReplace (resizeTo s.snapshot_chunk_bytes (offset + data.length))
        offset (offset + data.length) data }

/-- `try_use_chunks_as_new_snapshot`: when the chunk buffer decodes, promote
it to `snapshot_bytes` (`mem::take` leaves the chunk buffer empty), update the
metadata, and return the decoded state; otherwise change nothing. -/
def RamStorage.try_use_chunks_as_new_snapshot {σ ε : Type} (dec : List Nat → Option σ)
    (s : RamStorage σ ε) (last_index last_term : Nat) : Option σ × RamStorage σ ε :=
  match dec s.snapshot_chunk_bytes with
  | some sm =>
    (some sm,
      { s with
        snapshot_bytes := s.snapshot_chunk_bytes
        snapshot_chunk_bytes := []
        snapshot_last_index := last_index
        snapshot_last_term := last_term })
  | none => (none, s)

/-- `set_voted_for`. -/
def RamStorage.set_voted_for {σ ε : Type} (s : RamStorage σ ε) (v : Option Nat) :
    RamStorage σ ε :=
  { s with voted_for := v }

/-- `set_current_term`. -/
def RamStorage.set_current_term {σ ε : Type} (s : RamStorage σ ε) (t : Nat) :
    RamStorage σ ε :=
  { s with current_term := t }

theorem resizeTo_length (buf : List Nat) (n : Nat) : (resizeTo buf n).length = n := by
  unfold resizeTo
  split <;> simp <;> omega

theorem resizeTo_take (buf : List Nat) (offset n : Nat) (h : offset ≤ n) :
    (resizeTo buf n).take offset =
      (buf ++ List.replicate (offset - buf.length) 0).take offset := by
  unfold resizeTo
  by_cases h1 : n ≤ buf.length
  · rw [if_pos h1, List.take_take]
    have h2 : offset - buf.length = 0 := by omega
    have h3 : min offset n = offset := by omega
    rw [h2, h3]
    simp
  · rw [if_neg h1]
    by_cases h2 : offset ≤ buf.length
    · have h3 : offset - buf.length = 0 := by omega
      rw [h3, List.take_append_of_le_length h2]
      simp [List.take_append_of_le_length h2]
    · rw [List.take_append_eq_append_take, List.take_append_eq_append_take,
        List.take_replicate, List.take_replicate,
        List.take_of_length_le (by omega : buf.length ≤ offset)]
      congr 2
      omega

/-- Normal form of the chunk buffer after `add_new_snapshot_chunk`: the old
buffer zero-padded out to `offset`, cut at `offset`, with `data` appended. -/
theorem add_new_snapshot_chunk_bytes {σ ε : Type} (s : RamStorage σ ε) (offset : Nat)
    (data : List Nat) :
    (s.add_new_snapshot_chunk offset data).snapshot_chunk_bytes =
      (s.snapshot_chunk_bytes ++
        List.replicate (offset - s.snapshot_chunk_bytes.length) 0).take offset ++ data := by
  show spliceReplace (resizeTo s.snapshot_chunk_bytes (offset + data.length))
      offset (offset + data.length) data = _
  unfold spliceReplace
  rw [List.drop_of_length_le (by rw [resizeTo_length]),
    resizeTo_take _ _ _ (Nat.le_add_right _ _)]
  simp

/-- Claim C10: after `add_new_snapshot_chunk(offset, data)` the chunk buffer
has length exactly `offset + data.len()`; the bytes at `[offset, offset +
data.len())` are `data`; the bytes at `[0, offset)` keep their previous value
(zero where the buffer was shorter than `offset`); bytes at or beyond
`offset + data.len()` are discarded (forced by the length equation). -/
theorem C10_add_new_snapshot_chunk_frame {σ ε : Type} (s : RamStorage σ ε) (offset : Nat)
    (data : List Nat) :
    (s.add_new_snapshot_chunk offset data).snapshot_chunk_bytes.length = offset + data.length
    ∧ (∀ i, i < data.length →
        (s.add_new_snapshot_chunk offset data).snapshot_chunk_bytes[offset + i]? = data[i]?)
    ∧ (∀ i, i < offset →
        (s.add_new_snapshot_chunk offset data).snapshot_chunk_bytes[i]? =
          if i < s.snapshot_chunk_bytes.length then s.snapshot_chunk_bytes[i]? else some 0) := by
  rw [add_new_snapshot_chunk_bytes]
  refine ⟨by simp; omega, fun i hi => ?_, fun i hi => ?_⟩
  · rw [List.getElem?_append_right (by simp)]
    have h2 : offset + i -
        ((s.snapshot_chunk_bytes ++
          List.replicate (offset - s.snapshot_chunk_bytes.length) 0).take offset).length = i := by
      simp
      omega
    rw [h2]
  · rw [List.getElem?_append_left (by simp; omega), List.getElem?_take, if_pos hi,
      List.getElem?_append]
    by_cases h3 : i < s.snapshot_chunk_bytes.length
    · rw [if_pos h3, if_pos h3]
    · rw [if_neg h3, if_neg h3, List.getElem?_replicate, if_pos (by omega)]

theorem C10_add_new_snapshot_chunk_frame_witness :
    (((RamStorage.new [] : RamStorage KvModel Nat).add_new_snapshot_chunk 2
        [7]).snapshot_chunk_bytes.length = 3)
    ∧ (((RamStorage.new [] : RamStorage KvModel Nat).add_new_snapshot_chunk 2
        [7]).snapshot_chunk_bytes[2]? = some 7)
    ∧ (((RamStorage.new [] : RamStorage KvModel Nat).add_new_snapshot_chunk 2
        [7]).snapshot_chunk_bytes[0]? = some 0) := by
  have h := C10_add_new_snapshot_chunk_frame
    (RamStorage.new [] : RamStorage KvModel Nat) 2 [7]
  refine ⟨h.1, ?_, ?_⟩
  · have h2 := h.2.1 0 (by decide)
    simpa using h2
  · have h3 := h.2.2 0 (by decide)
    simpa using h3

/-- Claim C1 is false of the code: the same two chunks of a valid encoded
snapshot, delivered in the two possible orders, give different results from
`try_use_chunks_as_new_snapshot` — in offset order the snapshot decodes, in
reverse order `resize_with` truncates the buffer and finalization fails
(the decoder returns `None`, it does not panic). -/
theorem C1_reassembly_order_dependent :
    kv_write_bytes [([97], [98])] = [0, 0, 0, 1, 0, 0, 0] ++ [1, 97, 0, 0, 0, 1, 98]
    ∧ ((((RamStorage.new [] : RamStorage KvModel Nat).add_new_snapshot_chunk 0
          [0, 0, 0, 1, 0, 0, 0]).add_new_snapshot_chunk 7
          [1, 97, 0, 0, 0, 1, 98]).try_use_chunks_as_new_snapshot kvDecodeOpt 3 2).1
        = some [([97], [98])]
    ∧ ((((RamStorage.new [] : RamStorage KvModel Nat).add_new_snapshot_chunk 7
          [1, 97, 0, 0, 0, 1, 98]).add_new_snapshot_chunk 0
          [0, 0, 0, 1, 0, 0, 0]).try_use_chunks_as_new_snapshot kvDecodeOpt 3 2).1
        = none
    ∧ kv_try_from_bytes (((RamStorage.new [] : RamStorage KvModel Nat).add_new_snapshot_chunk 7
          [1, 97, 0, 0, 0, 1, 98]).add_new_snapshot_chunk 0
          [0, 0, 0, 1, 0, 0, 0]).snapshot_chunk_bytes = .fail := by
  decide

/-- A call against the log portion of the `Storage` trait. -/
inductive LogOp (ε : Type) where
  | add : ε → LogOp ε
  | removeBefore : Nat → LogOp ε
  | removeStartingAt : Nat → LogOp ε

/-- Apply one log call; `none` models the panic of `Vec::drain` on an
out-of-range index. -/
def applyLogOp {σ ε : Type} (s : RamStorage σ ε) : LogOp ε → Option (RamStorage σ ε)
  | .add e => some (s.add_log_entry e)
  | .removeBefore i => s.remove_log_entries_before i
  | .removeStartingAt i => s.remove_log_entries_starting_at i

/-- Apply a sequence of log calls, stopping at the first panic. -/
def applyLogOps {σ ε : Type} (s : RamStorage σ ε) : List (LogOp ε) → Option (RamStorage σ ε)
  | [] => some s
  | op :: t =>
    match applyLogOp s op with
    | none => none
    | some s2 => applyLogOps s2 t

/-- Entry bookkeeping for a log-call sequence: appends add one entry,
`remove_log_entries_before i` removes the `i` entries of positions `[0, i)`,
`remove_log_entries_starting_at i` removes the entries at positions
`[i, len)`, keeping `i`. -/
def expectedLen {ε : Type} : Nat → List (LogOp ε) → Nat
  | n, [] => n
  | n, .add _ :: t => expectedLen (n + 1) t
  | n, .removeBefore i :: t => expectedLen (n - i) t
  | n, .removeStartingAt i :: t => expectedLen (min i n) t

theorem applyLogOps_length {σ ε : Type} (ops : List (LogOp ε)) :
    ∀ s s2 : RamStorage σ ε, applyLogOps s ops = some s2 →
      s2.log.length = expectedLen s.log.length ops := by
  induction ops with
  | nil =>
    intro s s2 h
    simp [applyLogOps] at h
    subst h
    rfl
  | cons op t ih =>
    intro s s2 h
    cases op with
    | add e =>
      simp [applyLogOps, applyLogOp] at h
      have := ih _ _ h
      simpa [RamStorage.add_log_entry, expectedLen] using this
    | removeBefore i =>
      simp [applyLogOps, applyLogOp, RamStorage.remove_log_entries_before] at h
      by_cases hi : i ≤ s.log.length
      · rw [if_pos hi] at h
        simp at h
        have := ih _ _ h
        simpa [expectedLen] using this
      · rw [if_neg hi] at h
        simp at h
    | removeStartingAt i =>
      simp [applyLogOps, applyLogOp, RamStorage.remove_log_entries_starting_at] at h
      by_cases hi : i ≤ s.log.length
      · rw [if_pos hi] at h
        simp at h
        have := ih _ _ h
        simpa [expectedLen] using this
      · rw [if_neg hi] at h
        simp at h

/-- Claim C4: after any in-range sequence of `add_log_entry`,
`remove_log_entries_before`, `remove_log_entries_starting_at` calls starting
from a fresh storage, `num_log_entries` equals the number of appended entries
not removed (`expectedLen` tracks each call's removals), and `log_entry i` is
`some` exactly for `0 ≤ i < num_log_entries`. -/
theorem C4_log_contiguity {σ ε : Type} (init : σ) (ops : List (LogOp ε))
    (s : RamStorage σ ε) (h : applyLogOps (RamStorage.new init) ops = some s) :
    s.num_log_entries = expectedLen 0 ops
    ∧ ∀ i, i < s.num_log_entries ↔ (s.log_entry i).isSome := by
  constructor
  · have := applyLogOps_length ops (RamStorage.new init) s h
    simpa [RamStorage.new, RamStorage.num_log_entries] using this
  · intro i
    simp only [RamStorage.log_entry, RamStorage.num_log_entries, List.get?_eq_getElem?]
    constructor
    · intro hlt
      rw [List.getElem?_eq_getElem hlt]
      rfl
    · intro hs
      by_contra hge
      rw [List.getElem?_eq_none (by omega)] at hs
      simp at hs

theorem C4_log_contiguity_witness :
    applyLogOps (RamStorage.new [] : RamStorage KvModel Nat)
      [.add 10, .add 20, .removeBefore 1, .add 30, .removeStartingAt 1]
      = some ⟨[20], 0, none, [], 0, 0, [], []⟩
    ∧ (⟨[20], 0, none, [], 0, 0, [], []⟩ : RamStorage KvModel Nat).num_log_entries
        = expectedLen 0
          ([.add 10, .add 20, .removeBefore 1, .add 30, .removeStartingAt 1] : List (LogOp Nat))
    ∧ ((⟨[20], 0, none, [], 0, 0, [], []⟩ : RamStorage KvModel Nat).log_entry 0).isSome := by
  refine ⟨by decide, ?_, ?_⟩
  · exact (C4_log_contiguity [] _ _ (by decide)).1
  · exact ((C4_log_contiguity ([] : KvModel)
      [.add 10, .add 20, .removeBefore 1, .add 30, .removeStartingAt 1]
      ⟨[20], 0, none, [], 0, 0, [], []⟩ (by decide)).2 0).mp (by decide)

/-- Claim C7 as amended: `remove_log_entries_before 0` and
`remove_log_entries_starting_at num_log_entries` are no-ops, but any index
strictly above `num_log_entries` makes either call panic (`Vec::drain` is out
of range) instead of being a no-op. -/
theorem C7_truncation_noops {σ ε : Type} (s : RamStorage σ ε) :
    s.remove_log_entries_before 0 = some s
    ∧ s.remove_log_entries_starting_at s.num_log_entries = some s
    ∧ ∀ i, s.num_log_entries < i →
        s.remove_log_entries_starting_at i = none ∧ s.remove_log_entries_before i = none := by
  refine ⟨?_, ?_, ?_⟩
  · simp [RamStorage.remove_log_entries_before]
  · simp [RamStorage.remove_log_entries_starting_at, RamStorage.num_log_entries]
  · intro i hi
    constructor
    · simp only [RamStorage.remove_log_entries_starting_at]
      rw [if_neg (by exact Nat.not_le_of_lt hi)]
    · simp only [RamStorage.remove_log_entries_before]
      rw [if_neg (by exact Nat.not_le_of_lt hi)]

theorem C7_truncation_noops_witness :
    (RamStorage.new [] : RamStorage KvModel Nat).remove_log_entries_before 0
      = some (RamStorage.new [])
    ∧ (RamStorage.new [] : RamStorage KvModel Nat).remove_log_entries_starting_at
        (RamStorage.new [] : RamStorage KvModel Nat).num_log_entries
      = some (RamStorage.new [])
    ∧ (RamStorage.new [] : RamStorage KvModel Nat).remove_log_entries_starting_at 1 = none
    ∧ (RamStorage.new [] : RamStorage KvModel Nat).remove_log_entries_before 1 = none := by
  have h := C7_truncation_noops (RamStorage.new [] : RamStorage KvModel Nat)
  exact ⟨h.1, h.2.1, (h.2.2 1 (by decide)).1, (h.2.2 1 (by decide)).2⟩

/-- Claim C7 as stated is false: on an empty log, index `1` satisfies
`index ≥ num_log_entries()` (so the claim demands a no-op), but
`remove_log_entries_starting_at 1` panics — `self.log.drain(1..)` is out of
range — rather than leaving the log unchanged. -/
theorem C7_counterexample :
    (RamStorage.new [] : RamStorage KvModel Nat).num_log_entries ≤ 1
    ∧ (RamStorage.new [] : RamStorage KvModel Nat).remove_log_entries_starting_at 1 = none := by
  decide

/-- Claim C3: `try_use_chunks_as_new_snapshot` is atomic.  If the chunk buffer
decodes, the buffer becomes the installed snapshot payload, the metadata
becomes `(last_index, last_term)`, the chunk buffer is cleared, the decoded
state is returned, and every other field is unchanged.  If decoding fails the
call returns `none` and the whole storage state is unchanged. -/
theorem C3_try_use_chunks_atomic {σ ε : Type} (dec : List Nat → Option σ)
    (s : RamStorage σ ε) (last_index last_term : Nat) :
    (∀ m, dec s.snapshot_chunk_bytes = some m →
      s.try_use_chunks_as_new_snapshot dec last_index last_term =
        (some m,
          { s with
            snapshot_bytes := s.snapshot_chunk_bytes
            snapshot_chunk_bytes := []
            snapshot_last_index := last_index
            snapshot_last_term := last_term }))
    ∧ (dec s.snapshot_chunk_bytes = none →
      s.try_use_chunks_as_new_snapshot dec last_index last_term = (none, s)) := by
  unfold RamStorage.try_use_chunks_as_new_snapshot
  constructor
  · intro m hm
    rw [hm]
  · intro hn
    rw [hn]

theorem C3_try_use_chunks_atomic_witness :
    ((RamStorage.new [] : RamStorage KvModel Nat).add_new_snapshot_chunk 0
        [0, 0, 0, 1, 0, 0, 0, 1, 97, 0, 0, 0, 1, 98]).try_use_chunks_as_new_snapshot
        kvDecodeOpt 4 7 =
      (some [([97], [98])],
        { (RamStorage.new [] : RamStorage KvModel Nat).add_new_snapshot_chunk 0
            [0, 0, 0, 1, 0, 0, 0, 1, 97, 0, 0, 0, 1, 98] with
          snapshot_bytes :=
            ((RamStorage.new [] : RamStorage KvModel Nat).add_new_snapshot_chunk 0
              [0, 0, 0, 1, 0, 0, 0, 1, 97, 0, 0, 0, 1, 98]).snapshot_chunk_bytes
          snapshot_chunk_bytes := []
          snapshot_last_index := 4
          snapshot_last_term := 7 })
    ∧ (RamStorage.new [] : RamStorage KvModel Nat).try_use_chunks_as_new_snapshot
        kvDecodeOpt 4 7 = (none, RamStorage.new []) := by
  constructor
  · exact (C3_try_use_chunks_atomic kvDecodeOpt _ 4 7).1 [([97], [98])] (by decide)
  · exact (C3_try_use_chunks_atomic kvDecodeOpt _ 4 7).2 (by decide)

/-- A call against the snapshot portion of the `Storage` trait. -/
inductive SnapOp (σ : Type) where
  | setSnap : Nat → Nat → σ → SnapOp σ
  | tryUse : Nat → Nat → SnapOp σ
  | addChunk : Nat → List Nat → SnapOp σ

/-- Apply one snapshot call (`enc`/`dec` are the state machine's codec the
Rust storage is generic over). -/
def applySnapOp {σ ε : Type} (enc : σ → List Nat) (dec : List Nat → Option σ)
    (s : RamStorage σ ε) : SnapOp σ → RamStorage σ ε
  | .setSnap li lt sm => s.set_snapshot enc li lt sm
  | .tryUse li lt => (s.try_use_chunks_as_new_snapshot dec li lt).2
  | .addChunk o d => s.add_new_snapshot_chunk o d

/-- Apply a sequence of snapshot calls. -/
def applySnapOps {σ ε : Type} (enc : σ → List Nat) (dec : List Nat → Option σ)
    (s : RamStorage σ ε) : List (SnapOp σ) → RamStorage σ ε
  | [] => s
  | op :: t => applySnapOps enc dec (applySnapOp enc dec s op) t

/-- Caller-side discipline: a metadata-writing call supplies `last_index` and
`last_term` at least as large as the currently stored ones. -/
def snapArgsOK {σ ε : Type} (s : RamStorage σ ε) : SnapOp σ → Bool
  | .setSnap li lt _ => decide (s.snapshot_last_index ≤ li) && decide (s.snapshot_last_term ≤ lt)
  | .tryUse li lt => decide (s.snapshot_last_index ≤ li) && decide (s.snapshot_last_term ≤ lt)
  | .addChunk _ _ => true

/-- The discipline holds at each step along the execution of a sequence. -/
def snapOpsOK {σ ε : Type} (enc : σ → List Nat) (dec : List Nat → Option σ)
    (s : RamStorage σ ε) : List (SnapOp σ) → Bool
  | [] => true
  | op :: t => snapArgsOK s op && snapOpsOK enc dec (applySnapOp enc dec s op) t

theorem applySnapOp_meta {σ ε : Type} (enc : σ → List Nat) (dec : List Nat → Option σ)
    (s : RamStorage σ ε) (op : SnapOp σ) (h : snapArgsOK s op = true) :
    s.snapshot_last_index ≤ (applySnapOp enc dec s op).snapshot_last_index
    ∧ s.snapshot_last_term ≤ (applySnapOp enc dec s op).snapshot_last_term := by
  cases op with
  | setSnap li lt sm =>
    simp [snapArgsOK] at h
    simpa [applySnapOp, RamStorage.set_snapshot] using h
  | tryUse li lt =>
    simp [snapArgsOK] at h
    simp only [applySnapOp, RamStorage.try_use_chunks_as_new_snapshot]
    cases dec s.snapshot_chunk_bytes with
    | none => simp
    | some m => simpa using h
  | addChunk o d =>
    simp [applySnapOp, RamStorage.add_new_snapshot_chunk]

/-- Claim C8 as amended: across any sequence of `set_snapshot`,
`try_use_chunks_as_new_snapshot` and `add_new_snapshot_chunk` calls in which
every metadata-writing call supplies values at least the currently stored
ones (`snapOpsOK`), the stored `last_index`/`last_term` never decrease.  The
storage itself does not enforce this: without the discipline they can
decrease (see the counterexample). -/
theorem C8_metadata_monotone {σ ε : Type} (enc : σ → List Nat) (dec : List Nat → Option σ)
    (ops : List (SnapOp σ)) :
    ∀ s : RamStorage σ ε, snapOpsOK enc dec s ops = true →
      s.snapshot_last_index ≤ (applySnapOps enc dec s ops).snapshot_last_index
      ∧ s.snapshot_last_term ≤ (applySnapOps enc dec s ops).snapshot_last_term := by
  induction ops with
  | nil =>
    intro s _
    exact ⟨Nat.le_refl _, Nat.le_refl _⟩
  | cons op t ih =>
    intro s h
    simp only [snapOpsOK, Bool.and_eq_true] at h
    have h1 := applySnapOp_meta enc dec s op h.1
    have h2 := ih (applySnapOp enc dec s op) h.2
    exact ⟨Nat.le_trans h1.1 h2.1, Nat.le_trans h1.2 h2.2⟩

theorem C8_metadata_monotone_witness :
    snapOpsOK kv_write_bytes kvDecodeOpt (RamStorage.new [] : RamStorage KvModel Nat)
      [.setSnap 2 1 [([97], [98])], .setSnap 5 5 []] = true
    ∧ (RamStorage.new [] : RamStorage KvModel Nat).snapshot_last_index ≤
        (applySnapOps kv_write_bytes kvDecodeOpt (RamStorage.new [] : RamStorage KvModel Nat)
          [.setSnap 2 1 [([97], [98])], .setSnap 5 5 []]).snapshot_last_index := by
  refine ⟨by decide, ?_⟩
  exact (C8_metadata_monotone kv_write_bytes kvDecodeOpt
    [.setSnap 2 1 [([97], [98])], .setSnap 5 5 []]
    (RamStorage.new [] : RamStorage KvModel Nat) (by decide)).1

/-- Claim C8 as stated is false: nothing in the code prevents a later
`set_snapshot` from storing smaller metadata — after installing with
`last_index = last_term = 5` and then with `3`, the stored `last_index` has
decreased. -/
theorem C8_counterexample :
    (applySnapOps kv_write_bytes kvDecodeOpt (RamStorage.new [] : RamStorage KvModel Nat)
      [.setSnap 5 5 []]).snapshot_last_index = 5
    ∧ (applySnapOps kv_write_bytes kvDecodeOpt (RamStorage.new [] : RamStorage KvModel Nat)
      [.setSnap 5 5 [], .setSnap 3 3 []]).snapshot_last_index = 3 := by
  decide

/-- Claim C9: `snapshot()` decodes the held payload; when decoding succeeds it
returns the decoded state, and whenever it fails — in particular on a freshly
constructed storage, whose payload is empty and hence undecodable — it
returns the initial state machine supplied at construction. -/
theorem C9_snapshot_bootstrap {σ ε : Type} (dec : List Nat → Option σ) :
    (∀ s : RamStorage σ ε, ∀ m, dec s.snapshot_bytes = some m → s.snapshot dec = m)
    ∧ (∀ s : RamStorage σ ε, dec s.snapshot_bytes = none →
        s.snapshot dec = s.init_state_machine)
    ∧ (dec [] = none → ∀ init : σ,
        (RamStorage.new init : RamStorage σ ε).snapshot dec = init) := by
  refine ⟨?_, ?_, ?_⟩
  · intro s m hm
    simp [RamStorage.snapshot, hm]
  · intro s hn
    simp [RamStorage.snapshot, hn]
  · intro h0 init
    simp [RamStorage.snapshot, RamStorage.new, h0]

theorem C9_snapshot_bootstrap_witness :
    (RamStorage.new [([99], [100])] : RamStorage KvModel Nat).snapshot kvDecodeOpt
      = [([99], [100])] := by
  exact (C9_snapshot_bootstrap kvDecodeOpt).2.2 (by decide) [([99], [100])]

/-- Claim C2 as stated is false: on input declaring a 1-byte key whose byte is
`0xFF` (not valid UTF-8), both decoders reach `String::from_utf8(..).unwrap()`
and panic instead of returning `None`. -/
theorem C2_counterexample :
    kv_try_from_bytes [0, 0, 0, 1, 0, 0, 0, 1, 255] = .panic
    ∧ svc_try_from_bytes [0, 0, 0, 1, 255] = .panic
    ∧ validUtf8 [255] = false := by
  decide

theorem next_u32_u32be (n : Nat) (rest : List Nat) :
    next_u32 (u32be n ++ rest) = some (n % 2 ^ 32, rest) := by
  simp only [u32be, List.cons_append, List.nil_append, next_u32,
    Option.some.injEq, Prod.mk.injEq]
  exact ⟨by omega, trivial⟩

theorem next_bytes_append (l rest : List Nat) :
    next_bytes l.length (l ++ rest) = some (l, rest) := by
  unfold next_bytes
  rw [if_pos (by simp), List.take_left, List.drop_left]

/-- Reading back one length-prefixed string written by `writeStr`. -/
theorem readStr_writeStr (s rest : List Nat) (hv : validUtf8 s = true)
    (hlen : s.length < 2 ^ 32) :
    readStr (writeStr s ++ rest) = .ok s rest := by
  unfold readStr writeStr
  rw [List.append_assoc, next_u32_u32be]
  dsimp only
  rw [Nat.mod_eq_of_lt hlen, next_bytes_append]
  dsimp only
  rw [if_pos hv]

/-- The map built by the decoding loop: insert the pairs left to right. -/
def insertAll (acc : KvModel) : KvModel → KvModel
  | [] => acc
  | (k, v) :: t => insertAll (insertPair acc k v) t

theorem insertPair_of_fresh_key (acc : KvModel) (k v : List Nat)
    (h : ∀ p ∈ acc, p.1 ≠ k) : insertPair acc k v = acc ++ [(k, v)] := by
  induction acc with
  | nil => rfl
  | cons p t ih =>
    obtain ⟨k0, v0⟩ := p
    have hk0 : k0 ≠ k := h (k0, v0) (by simp)
    simp only [insertPair, if_neg hk0, List.cons_append, List.cons.injEq, true_and]
    exact ih fun p hp => h p (by simp [hp])

theorem insertAll_of_nodup_keys (m : KvModel) :
    ∀ acc : KvModel, (((acc ++ m).map Prod.fst).Nodup) → insertAll acc m = acc ++ m := by
  induction m with
  | nil =>
    intro acc _
    simp [insertAll]
  | cons p t ih =>
    obtain ⟨k, v⟩ := p
    intro acc hnd
    simp only [insertAll]
    have hfresh : ∀ p ∈ acc, p.1 ≠ k := by
      intro p hp hpk
      rw [List.map_append, List.nodup_append] at hnd
      exact hnd.2.2 (List.mem_map_of_mem Prod.fst hp) (by simp [hpk])
    rw [insertPair_of_fresh_key acc k v hfresh]
    have hre : acc ++ (k, v) :: t = (acc ++ [(k, v)]) ++ t := by simp
    rw [hre]
    exact ih (acc ++ [(k, v)]) (by rw [← hre]; exact hnd)

/-- Reading back the pair sequence written by `writePairs`. -/
theorem readPairs_writePairs (m : KvModel)
    (hutf : ∀ p ∈ m, validUtf8 p.1 = true ∧ validUtf8 p.2 = true)
    (hlen : ∀ p ∈ m, p.1.length < 2 ^ 32 ∧ p.2.length < 2 ^ 32) :
    ∀ (rest : List Nat) (acc : KvModel),
      readPairs m.length (writePairs m ++ rest) acc = .ok (insertAll acc m) rest := by
  induction m with
  | nil =>
    intro rest acc
    simp [writePairs, readPairs, insertAll]
  | cons p t ih =>
    obtain ⟨k, v⟩ := p
    intro rest acc
    have hk := hutf (k, v) (by simp)
    have hl := hlen (k, v) (by simp)
    simp only [writePairs, List.length_cons, readPairs]
    rw [List.append_assoc, List.append_assoc,
      readStr_writeStr k _ hk.1 hl.1]
    dsimp only
    rw [readStr_writeStr v _ hk.2 hl.2]
    dsimp only [insertAll]
    exact ih (fun p hp => hutf p (by simp [hp])) (fun p hp => hlen p (by simp [hp]))
      rest (insertPair acc k v)

/-- Claim C5: decoding the bytes produced by encoding any key/value state
succeeds and returns exactly the original pair sequence (in particular the
same set of key/value pairs), consuming the whole encoding.  The hypotheses
are the Rust-side invariants: keys and values are `String`s (valid UTF-8),
`HashMap` keys are distinct, and all lengths fit in `u32`. -/
theorem C5_round_trip (m : KvModel)
    (hutf : ∀ p ∈ m, validUtf8 p.1 = true ∧ validUtf8 p.2 = true)
    (hlen : ∀ p ∈ m, p.1.length < 2 ^ 32 ∧ p.2.length < 2 ^ 32)
    (hcount : m.length < 2 ^ 32)
    (hkeys : (m.map Prod.fst).Nodup) :
    kv_try_from_bytes (kv_write_bytes m) = .ok m [] := by
  unfold kv_try_from_bytes kv_write_bytes
  rw [next_u32_u32be]
  dsimp only
  rw [Nat.mod_eq_of_lt hcount, ← List.append_nil (writePairs m),
    readPairs_writePairs m hutf hlen [] []]
  rw [insertAll_of_nodup_keys m [] (by simpa using hkeys)]
  simp

theorem C5_round_trip_witness :
    kv_try_from_bytes (kv_write_bytes [([104, 105], []), ([], [0xC3, 0xA9])]) =
      .ok [([104, 105], []), ([], [0xC3, 0xA9])] [] := by
  exact C5_round_trip [([104, 105], []), ([], [0xC3, 0xA9])]
    (by decide) (by decide) (by decide) (by decide)

theorem next_u32_short (p : List Nat) (h : p.length < 4) : next_u32 p = none := by
  match p with
  | [] => rfl
  | [_] => rfl
  | [_, _] => rfl
  | [_, _, _] => rfl
  | _ :: _ :: _ :: _ :: _ =>
    simp [List.length_cons] at h
    exact absurd h (by omega)

theorem u32be_length (n : Nat) : (u32be n).length = 4 := rfl

/-- Splitting a list equation `p ++ q = b ++ tail` when `p` extends past `b`. -/
theorem pre_split {p q b tail : List Nat} (h : p ++ q = b ++ tail)
    (hb : b.length ≤ p.length) :
    p = b ++ p.drop b.length ∧ p.drop b.length ++ q = tail := by
  have h1 : p.take b.length = b := by
    have h2 := congrArg (List.take b.length) h
    rw [List.take_append_of_le_length hb, List.take_left] at h2
    exact h2
  constructor
  · conv_lhs => rw [← List.take_append_drop b.length p]
    rw [h1]
  · have h2 := congrArg (List.drop b.length) h
    rw [List.drop_append_of_le_length hb, List.drop_left] at h2
    exact h2

/-- `readStr` on a byte-aligned cut of `writeStr s ++ tail`: either the cut
falls inside the field and reading fails, or the whole field is present and
reading returns it. -/
theorem readStr_pre (s tail p q : List Nat) (hv : validUtf8 s = true)
    (hsl : s.length < 2 ^ 32) (heq : writeStr s ++ tail = p ++ q) :
    readStr p = .fail
    ∨ ∃ p2, p = writeStr s ++ p2 ∧ p2 ++ q = tail ∧ readStr p = .ok s p2 := by
  by_cases h4 : p.length < 4
  · left
    unfold readStr
    rw [next_u32_short p h4]
  · have hsp : p ++ q = u32be s.length ++ (s ++ tail) := by
      rw [← heq]
      unfold writeStr
      rw [List.append_assoc]
    have hs1 := pre_split hsp (by rw [u32be_length]; omega)
    obtain ⟨hp, hrest⟩ := hs1
    rw [u32be_length] at hp hrest
    by_cases h5 : (p.drop 4).length < s.length
    · left
      rw [hp]
      unfold readStr
      rw [next_u32_u32be]
      dsimp only
      rw [Nat.mod_eq_of_lt hsl]
      unfold next_bytes
      rw [if_neg (by omega)]
    · have hs2 := pre_split hrest (by omega)
      obtain ⟨hp2, hrest2⟩ := hs2
      right
      refine ⟨(p.drop 4).drop s.length, ?_, hrest2, ?_⟩
      · conv_lhs => rw [hp, hp2]
        exact (List.append_assoc _ _ _).symm
      · conv_lhs => rw [hp, hp2, ← List.append_assoc]
        exact readStr_writeStr s _ hv hsl

/-- Decoding a strict prefix of the written pair sequence fails (returns
`fail`, never a value and never a panic). -/
theorem readPairs_pre_fail (m : KvModel) :
    ∀ (acc : KvModel) (p q : List Nat),
      (∀ pr ∈ m, validUtf8 pr.1 = true ∧ validUtf8 pr.2 = true) →
      (∀ pr ∈ m, pr.1.length < 2 ^ 32 ∧ pr.2.length < 2 ^ 32) →
      writePairs m = p ++ q → q ≠ [] →
      readPairs m.length p acc = .fail := by
  induction m with
  | nil =>
    intro acc p q _ _ heq hq
    simp only [writePairs] at heq
    exact absurd (List.append_eq_nil.mp heq.symm).2 hq
  | cons pr t ih =>
    obtain ⟨k, v⟩ := pr
    intro acc p q hutf hlen heq hq
    have hk := hutf (k, v) (by simp)
    have hl := hlen (k, v) (by simp)
    have heq2 : writeStr k ++ (writeStr v ++ writePairs t) = p ++ q := by
      rw [← heq]
      simp [writePairs, List.append_assoc]
    simp only [List.length_cons, readPairs]
    rcases readStr_pre k (writeStr v ++ writePairs t) p q hk.1 hl.1 heq2 with
      hf | ⟨p2, _, hq2, hok⟩
    · rw [hf]
    · rw [hok]
      dsimp only
      rcases readStr_pre v (writePairs t) p2 q hk.2 hl.2 hq2.symm with
        hf2 | ⟨p3, _, hq3, hok2⟩
      · rw [hf2]
      · rw [hok2]
        dsimp only
        exact ih (insertPair acc k v) p3 q (fun pr hpr => hutf pr (by simp [hpr]))
          (fun pr hpr => hlen pr (by simp [hpr])) hq3.symm hq

/-- Decoding a strict prefix of a full snapshot encoding fails. -/
theorem kv_try_pre_fail (m : KvModel) (p q : List Nat)
    (hutf : ∀ pr ∈ m, validUtf8 pr.1 = true ∧ validUtf8 pr.2 = true)
    (hlen : ∀ pr ∈ m, pr.1.length < 2 ^ 32 ∧ pr.2.length < 2 ^ 32)
    (hcount : m.length < 2 ^ 32)
    (heq : kv_write_bytes m = p ++ q) (hq : q ≠ []) :
    kv_try_from_bytes p = .fail := by
  by_cases h4 : p.length < 4
  · unfold kv_try_from_bytes
    rw [next_u32_short p h4]
  · have heq2 : p ++ q = u32be m.length ++ writePairs m := heq.symm
    have hs := pre_split heq2 (by rw [u32be_length]; omega)
    obtain ⟨hp, hrest⟩ := hs
    rw [u32be_length] at hp hrest
    unfold kv_try_from_bytes
    conv_lhs => rw [hp]
    rw [next_u32_u32be]
    dsimp only
    rw [Nat.mod_eq_of_lt hcount]
    exact readPairs_pre_fail m [] (p.drop 4) q hutf hlen hrest.symm hq

/-- Concatenation of the chunk payloads. -/
def listJoin : List (List Nat) → List Nat
  | [] => []
  | c :: t => c ++ listJoin t

theorem listJoin_append (a b : List (List Nat)) :
    listJoin (a ++ b) = listJoin a ++ listJoin b := by
  induction a with
  | nil => simp [listJoin]
  | cons c t ih => simp [listJoin, ih]

/-- Chunks of an in-order transfer, paired with their byte offsets. -/
def chunksWithOffsets (o : Nat) : List (List Nat) → List (Nat × List Nat)
  | [] => []
  | c :: t => (o, c) :: chunksWithOffsets (o + c.length) t

/-- Feed a list of `(offset, data)` chunks to `add_new_snapshot_chunk`. -/
def deliverChunks {σ ε : Type} (s : RamStorage σ ε) : List (Nat × List Nat) → RamStorage σ ε
  | [] => s
  | (o, d) :: t => deliverChunks (s.add_new_snapshot_chunk o d) t

/-- Delivering chunks in offset order, each at the current end of the buffer,
concatenates them. -/
theorem deliver_in_order {σ ε : Type} (cs : List (List Nat)) :
    ∀ s : RamStorage σ ε,
      (deliverChunks s (chunksWithOffsets s.snapshot_chunk_bytes.length cs)).snapshot_chunk_bytes
        = s.snapshot_chunk_bytes ++ listJoin cs := by
  induction cs with
  | nil =>
    intro s
    simp [chunksWithOffsets, deliverChunks, listJoin]
  | cons c t ih =>
    intro s
    simp only [chunksWithOffsets, deliverChunks]
    have hb : (s.add_new_snapshot_chunk s.snapshot_chunk_bytes.length c).snapshot_chunk_bytes
        = s.snapshot_chunk_bytes ++ c := by
      rw [add_new_snapshot_chunk_bytes]
      simp
    have hlen2 : s.snapshot_chunk_bytes.length + c.length
        = (s.add_new_snapshot_chunk s.snapshot_chunk_bytes.length
            c).snapshot_chunk_bytes.length := by
      rw [hb]
      simp
    rw [hlen2, ih, hb, List.append_assoc]
    rfl

/-- Claim C6: for any valid encoded snapshot split into nonempty chunks (at
least two), delivering only a strict prefix of the chunks in offset order and
then calling `try_use_chunks_as_new_snapshot` returns `none` — the decoder
returns `fail` on the truncated buffer (it neither succeeds nor panics).
This covers every split point, including those at length-prefixed field
boundaries. -/
theorem C6_strict_prefix_never_finalizes (m init : KvModel)
    (chunks : List (List Nat)) (k li lt : Nat)
    (hutf : ∀ pr ∈ m, validUtf8 pr.1 = true ∧ validUtf8 pr.2 = true)
    (hlen : ∀ pr ∈ m, pr.1.length < 2 ^ 32 ∧ pr.2.length < 2 ^ 32)
    (hcount : m.length < 2 ^ 32)
    (hjoin : listJoin chunks = kv_write_bytes m)
    (hne : ∀ c ∈ chunks, c ≠ [])
    (_htwo : 2 ≤ chunks.length)
    (hk : k < chunks.length) :
    ((deliverChunks (RamStorage.new init : RamStorage KvModel Nat)
        (chunksWithOffsets 0 (chunks.take k))).try_use_chunks_as_new_snapshot
        kvDecodeOpt li lt).1 = none
    ∧ kv_try_from_bytes
        (deliverChunks (RamStorage.new init : RamStorage KvModel Nat)
          (chunksWithOffsets 0 (chunks.take k))).snapshot_chunk_bytes = .fail := by
  have hbuf : (deliverChunks (RamStorage.new init : RamStorage KvModel Nat)
      (chunksWithOffsets 0 (chunks.take k))).snapshot_chunk_bytes
        = listJoin (chunks.take k) := by
    have h := deliver_in_order (chunks.take k) (RamStorage.new init : RamStorage KvModel Nat)
    simpa [RamStorage.new] using h
  have hsplitj : kv_write_bytes m = listJoin (chunks.take k) ++ listJoin (chunks.drop k) := by
    rw [← hjoin, ← listJoin_append, List.take_append_drop]
  have hqne : listJoin (chunks.drop k) ≠ [] := by
    cases hd : chunks.drop k with
    | nil =>
      have hlen0 := congrArg List.length hd
      simp at hlen0
      omega
    | cons c r =>
      have hc : c ∈ chunks := List.drop_subset k chunks (by rw [hd]; simp)
      simp only [listJoin]
      intro h0
      exact hne c hc (List.append_eq_nil.mp h0).1
  have hfail : kv_try_from_bytes (listJoin (chunks.take k)) = .fail :=
    kv_try_pre_fail m _ _ hutf hlen hcount hsplitj hqne
  have hdec : kvDecodeOpt (listJoin (chunks.take k)) = none := by
    unfold kvDecodeOpt
    rw [hfail]
  constructor
  · simp only [RamStorage.try_use_chunks_as_new_snapshot, hbuf, hdec]
  · rw [hbuf]
    exact hfail

theorem C6_strict_prefix_never_finalizes_witness :
    ((deliverChunks (RamStorage.new [] : RamStorage KvModel Nat)
        (chunksWithOffsets 0 ([[0, 0, 0, 1, 0, 0, 0], [1, 97, 0, 0, 0, 1, 98]].take
          1))).try_use_chunks_as_new_snapshot kvDecodeOpt 3 2).1 = none := by
  exact (C6_strict_prefix_never_finalizes [([97], [98])] []
    [[0, 0, 0, 1, 0, 0, 0], [1, 97, 0, 0, 0, 1, 98]] 1 3 2
    (by decide) (by decide) (by decide) (by decide) (by decide) (by decide) (by decide)).1

/-- The structural scan of one length-prefixed field (spec section 4.1):
`next_u32` then `next_bytes`, with no UTF-8 check.  It delimits the byte
slice a decoder will hand to `String::from_utf8`. -/
def scanStr (l : List Nat) : Option (List Nat × List Nat) :=
  match next_u32 l with
  | none => none
  | some (n, rest) => next_bytes n rest

/-- The string-field slices the pair-reading loop scans out of an input
(stopping where the input runs out). -/
def pairsFields : Nat → List Nat → List (List Nat)
  | 0, _ => []
  | n + 1, l =>
    match scanStr l with
    | none => []
    | some (s1, l1) =>
      match scanStr l1 with
      | none => [s1]
      | some (s2, l2) => s1 :: s2 :: pairsFields n l2

/-- Whether the input holds all the bytes the pair-reading loop asks for. -/
def pairsComplete : Nat → List Nat → Bool
  | 0, _ => true
  | n + 1, l =>
    match scanStr l with
    | none => false
    | some (_, l1) =>
      match scanStr l1 with
      | none => false
      | some (_, l2) => pairsComplete n l2

/-- The string-field slices of a `KvStateMachine` input. -/
def kvStringFields (l : List Nat) : List (List Nat) :=
  match next_u32 l with
  | none => []
  | some (n, rest) => pairsFields n rest

/-- Whether a `KvStateMachine` input is long enough for its declared counts
and lengths; `false` means the input is truncated or has insufficient bytes. -/
def kvScanComplete (l : List Nat) : Bool :=
  match next_u32 l with
  | none => false
  | some (n, rest) => pairsComplete n rest

/-- The string-field slices of a `SetValueCommand` input. -/
def svcStringFields (l : List Nat) : List (List Nat) :=
  match scanStr l with
  | none => []
  | some (s1, l1) =>
    match scanStr l1 with
    | none => [s1]
    | some (s2, l2) =>
      match scanStr l2 with
      | none => [s1, s2]
      | some (s3, _) => [s1, s2, s3]

/-- Whether a `SetValueCommand` input holds all three declared fields. -/
def svcScanComplete (l : List Nat) : Bool :=
  match scanStr l with
  | none => false
  | some (_, l1) =>
    match scanStr l1 with
    | none => false
    | some (_, l2) => (scanStr l2).isSome

theorem readStr_of_scanStr_none (l : List Nat) (h : scanStr l = none) :
    readStr l = .fail := by
  unfold readStr
  unfold scanStr at h
  cases hu : next_u32 l with
  | none => rfl
  | some p =>
    obtain ⟨n, rest⟩ := p
    rw [hu] at h
    dsimp only at h
    dsimp only
    rw [h]

theorem readStr_of_scanStr_some (l s r : List Nat) (h : scanStr l = some (s, r)) :
    readStr l = if validUtf8 s then .ok s r else .panic := by
  unfold readStr
  unfold scanStr at h
  cases hu : next_u32 l with
  | none =>
    rw [hu] at h
    simp at h
  | some p =>
    obtain ⟨n, rest⟩ := p
    rw [hu] at h
    dsimp only at h
    dsimp only
    rw [h]
/-- The pair-reading loop never panics when the fields it scans are valid
UTF-8, and returns `fail` when the input runs out before the declared count
is met. -/
theorem readPairs_fields (n : Nat) :
    ∀ l acc, (∀ s ∈ pairsFields n l, validUtf8 s = true) →
      readPairs n l acc ≠ DRes.panic
      ∧ (pairsComplete n l = false → readPairs n l acc = DRes.fail) := by
  induction n with
  | zero =>
    intro l acc _
    refine ⟨by simp [readPairs], ?_⟩
    intro hf
    simp [pairsComplete] at hf
  | succ k ih =>
    intro l acc h
    simp only [pairsFields] at h
    simp only [readPairs, pairsComplete]
    cases h1 : scanStr l with
    | none =>
      rw [readStr_of_scanStr_none l h1]
      exact ⟨by simp, fun _ => rfl⟩
    | some p1 =>
      obtain ⟨s1, l1⟩ := p1
      rw [h1] at h
      dsimp only at h
      rw [readStr_of_scanStr_some l s1 l1 h1]
      dsimp only
      cases h2 : scanStr l1 with
      | none =>
        rw [h2] at h
        dsimp only at h
        have hs1 : validUtf8 s1 = true := h s1 (by simp)
        rw [if_pos hs1]
        dsimp only
        rw [readStr_of_scanStr_none l1 h2]
        exact ⟨by simp, fun _ => rfl⟩
      | some p2 =>
        obtain ⟨s2, l2⟩ := p2
        rw [h2] at h
        dsimp only at h
        have hs1 : validUtf8 s1 = true := h s1 (by simp)
        have hs2 : validUtf8 s2 = true := h s2 (by simp)
        rw [if_pos hs1]
        dsimp only
        rw [readStr_of_scanStr_some l1 s2 l2 h2, if_pos hs2]
        dsimp only
        exact ih l2 (insertPair acc s1 s2) fun s hs => h s (by simp [hs])

/-- Claim C2 as amended: on every input whose scanned string-field slices are
valid UTF-8 — ASCII or not — both decoders never panic, and return `fail`
(Rust `None`) whenever the input is truncated or holds fewer bytes than its
declared counts and lengths require; only a malformed-UTF-8 string field
makes them panic (see the counterexample). -/
theorem C2_decode_no_panic_on_valid_fields (l : List Nat) :
    ((∀ s ∈ kvStringFields l, validUtf8 s = true) →
      kv_try_from_bytes l ≠ DRes.panic
      ∧ (kvScanComplete l = false → kv_try_from_bytes l = DRes.fail))
    ∧ ((∀ s ∈ svcStringFields l, validUtf8 s = true) →
      svc_try_from_bytes l ≠ DRes.panic
      ∧ (svcScanComplete l = false → svc_try_from_bytes l = DRes.fail)) := by
  constructor
  · intro h
    simp only [kvStringFields] at h
    simp only [kv_try_from_bytes, kvScanComplete]
    cases hu : next_u32 l with
    | none => exact ⟨by simp, fun _ => rfl⟩
    | some p =>
      obtain ⟨n, rest⟩ := p
      rw [hu] at h
      dsimp only at h
      exact readPairs_fields n rest [] h
  · intro h
    simp only [svcStringFields] at h
    simp only [svc_try_from_bytes, svcScanComplete]
    cases h1 : scanStr l with
    | none =>
      rw [readStr_of_scanStr_none l h1]
      exact ⟨by simp, fun _ => rfl⟩
    | some p1 =>
      obtain ⟨s1, l1⟩ := p1
      rw [h1] at h
      dsimp only at h
      rw [readStr_of_scanStr_some l s1 l1 h1]
      dsimp only
      cases h2 : scanStr l1 with
      | none =>
        rw [h2] at h
        dsimp only at h
        have hs1 : validUtf8 s1 = true := h s1 (by simp)
        rw [if_pos hs1]
        dsimp only
        rw [readStr_of_scanStr_none l1 h2]
        exact ⟨by simp, fun _ => rfl⟩
      | some p2 =>
        obtain ⟨s2, l2⟩ := p2
        rw [h2] at h
        dsimp only at h
        dsimp only
        cases h3 : scanStr l2 with
        | none =>
          rw [h3] at h
          dsimp only at h
          have hs1 : validUtf8 s1 = true := h s1 (by simp)
          have hs2 : validUtf8 s2 = true := h s2 (by simp)
          rw [if_pos hs1]
          dsimp only
          rw [readStr_of_scanStr_some l1 s2 l2 h2, if_pos hs2]
          dsimp only
          rw [readStr_of_scanStr_none l2 h3]
          exact ⟨by simp, fun _ => rfl⟩
        | some p3 =>
          obtain ⟨s3, l3⟩ := p3
          rw [h3] at h
          dsimp only at h
          have hs1 : validUtf8 s1 = true := h s1 (by simp)
          have hs2 : validUtf8 s2 = true := h s2 (by simp)
          have hs3 : validUtf8 s3 = true := h s3 (by simp)
          rw [if_pos hs1]
          dsimp only
          rw [readStr_of_scanStr_some l1 s2 l2 h2, if_pos hs2]
          dsimp only
          rw [readStr_of_scanStr_some l2 s3 l3 h3, if_pos hs3]
          exact ⟨by simp, by simp⟩

theorem C2_decode_no_panic_on_valid_fields_witness :
    kv_try_from_bytes [0, 0, 0, 1, 0, 0, 0, 2, 195, 169, 0, 0, 0, 5] = DRes.fail
    ∧ svc_try_from_bytes [0, 0, 0, 2, 195, 169] = DRes.fail := by
  constructor
  · exact ((C2_decode_no_panic_on_valid_fields
      [0, 0, 0, 1, 0, 0, 0, 2, 195, 169, 0, 0, 0, 5]).1 (by decide)).2 (by decide)
  · exact ((C2_decode_no_panic_on_valid_fields
      [0, 0, 0, 2, 195, 169]).2 (by decide)).2 (by decide)
